import Mathlib

/-!
Verification of the `read_write_at` crate (src/lib.rs): positional I/O traits
`ReadAt` / `ReadAtMut` / `WriteAt` / `WriteAtMut`, their exact-transfer default
methods `read_exact_at` / `write_all_at`, the blanket widening impls, the
`ReadWriteSeek` adapter and the `Mutex`-based bridge.

Modelling conventions:
- A byte buffer passed to a single-call primitive is represented by its
  remaining length (the loops never inspect buffer contents, they only shrink
  the slice); offsets are `Nat` (the `u64` arithmetic here is a single
  addition per step, overflow is irrelevant to the claims).
- The underlying single-call primitive (`read_at` / `write_at` of the
  concrete implementation) is an oracle `σ → Nat → Nat → RWResult × σ`:
  given its internal state, the remaining buffer length and the offset it
  returns `Ok n` or `Err kind` together with the successor state.
- The `while` loops are fuel-indexed recursive functions; `outOfFuel` marks
  fuel exhaustion, `panic` marks the Rust slice-index panic in
  `buf = &buf[n..]` when a primitive reports `n` larger than the remaining
  length.
-/

namespace ReadWriteAt

/-- The `std::io::ErrorKind` values distinguished by the crate's code:
`Interrupted` (retried in the loops), `UnexpectedEof` (loop/seek failures),
`WriteZero` (zero-progress write), `Other` (poisoned mutex), and a catch-all
for any error kind propagated from the underlying resource. -/
inductive ErrKind where
  | interrupted
  | unexpectedEof
  | writeZero
  | other
  | otherKind (tag : Nat)
  deriving DecidableEq, Repr

/-- Result of one single-call primitive: `Ok n` (bytes transferred) or an
error of some kind, mirroring `std::io::Result<usize>`. -/
inductive RWResult where
  | ok (n : Nat)
  | err (k : ErrKind)
  deriving DecidableEq, Repr

/-- Outcome of an exact-transfer loop in the embedding: `ok` (`Ok(())`),
`err k` (`Err` of that kind), `panic` (slice indexing `buf[n..]` with
`n > buf.len()`), or `outOfFuel` (the fuel bound was hit before the loop
exited; used to reason about termination). -/
inductive ExactOutcome where
  | ok
  | err (k : ErrKind)
  | panic
  | outOfFuel
  deriving DecidableEq, Repr

/-- A single-call oracle: the implementation's `read_at`/`write_at`, taking
its internal state, the remaining buffer length and the offset. -/
def Oracle (σ : Type) : Type := σ → Nat → Nat → RWResult × σ

/-- Embedding of `ReadAt::read_exact_at` / `ReadAtMut::read_exact_at` (src/lib.rs lines
41-59 and 71-89, the two bodies are textually identical):

    while !buf.is_empty() {
        match self.read_at(buf, offset) {
            Ok(0) => break,
            Ok(n) => { let tmp = buf; buf = &mut tmp[n..]; offset += n as u64; }
            Err(ref e) if e.kind() == ErrorKind::Interrupted => {}
            Err(e) => return Err(e),
        }
    }
    if !buf.is_empty() { Err(UnexpectedEof, "failed to fill whole buffer") }
    else { Ok(()) }

The function returns the outcome together with the oracle state and the
final remaining length and offset of the loop locals. The `Ok(0) => break`
arm is only reachable with a non-empty `buf`, so it always flows into the
`UnexpectedEof` branch of the post-loop check. -/
def readExactAtLoop {σ : Type} (readAt : Oracle σ) :
    Nat → σ → Nat → Nat → ExactOutcome × σ × Nat × Nat
  | 0, s, rem, off => (.outOfFuel, s, rem, off)
  | fuel + 1, s, rem, off =>
    if rem = 0 then
      (.ok, s, rem, off)
    else
      match readAt s rem off with
      | (.ok 0, s') => (.err .unexpectedEof, s', rem, off)
      | (.ok (n + 1), s') =>
        if rem < n + 1 then (.panic, s', rem, off)
        else readExactAtLoop readAt fuel s' (rem - (n + 1)) (off + (n + 1))
      | (.err .interrupted, s') => readExactAtLoop readAt fuel s' rem off
      | (.err k, s') => (.err k, s', rem, off)

/-- Embedding of `WriteAt::write_all_at` / `WriteAtMut::write_all_at` (src/lib.rs lines
110-128 and 146-164, textually identical):

    while !buf.is_empty() {
        match self.write_at(buf, offset) {
            Ok(0) => return Err(WriteZero, "failed to write whole buffer"),
            Ok(n) => { buf = &buf[n..]; offset += n as u64 }
            Err(ref e) if e.kind() == ErrorKind::Interrupted => {}
            Err(e) => return Err(e),
        }
    }
    Ok(())
-/
def writeAllAtLoop {σ : Type} (writeAt : Oracle σ) :
    Nat → σ → Nat → Nat → ExactOutcome × σ × Nat × Nat
  | 0, s, rem, off => (.outOfFuel, s, rem, off)
  | fuel + 1, s, rem, off =>
    if rem = 0 then
      (.ok, s, rem, off)
    else
      match writeAt s rem off with
      | (.ok 0, s') => (.err .writeZero, s', rem, off)
      | (.ok (n + 1), s') =>
        if rem < n + 1 then (.panic, s', rem, off)
        else writeAllAtLoop writeAt fuel s' (rem - (n + 1)) (off + (n + 1))
      | (.err .interrupted, s') => writeAllAtLoop writeAt fuel s' rem off
      | (.err k, s') => (.err k, s', rem, off)

/-- An implementation of the `ReadAt` trait: its `read_at` and the
`read_exact_at` it actually exposes (the default body, unless overridden —
Rust lets an impl replace the default, as the unix `File` impl does).
Exact methods take a fuel argument, matching the loop embedding. -/
structure ReadAtImpl (σ : Type) where
  read_at : Oracle σ
  read_exact_at : Nat → σ → Nat → Nat → ExactOutcome × σ × Nat × Nat

/-- An implementation of the `ReadAtMut` trait. -/
structure ReadAtMutImpl (σ : Type) where
  read_at : Oracle σ
  read_exact_at : Nat → σ → Nat → Nat → ExactOutcome × σ × Nat × Nat

/-- An implementation of the `WriteAt` trait. -/
structure WriteAtImpl (σ : Type) where
  write_at : Oracle σ
  write_all_at : Nat → σ → Nat → Nat → ExactOutcome × σ × Nat × Nat

/-- An implementation of the `WriteAtMut` trait. -/
structure WriteAtMutImpl (σ : Type) where
  write_at : Oracle σ
  write_all_at : Nat → σ → Nat → Nat → ExactOutcome × σ × Nat × Nat

/-- The blanket widening impl `impl<T: ReadAt+?Sized> ReadAtMut for T`
(src/lib.rs lines 92-99): both `read_at` and `read_exact_at` are explicitly
forwarded to the `ReadAt` implementation. -/
def widenRead {σ : Type} (r : ReadAtImpl σ) : ReadAtMutImpl σ :=
  { read_at := r.read_at
    read_exact_at := r.read_exact_at }

/-- The blanket widening impl `impl<T: WriteAt+?Sized> WriteAtMut for T`
(src/lib.rs lines 167-171): only `write_at` is forwarded; `write_all_at` is
NOT provided by the impl, so Rust uses `WriteAtMut`'s default body — the
retry loop over the forwarded `write_at` — rather than the wrapped
implementation's own `write_all_at`. -/
def widenWrite {σ : Type} (w : WriteAtImpl σ) : WriteAtMutImpl σ :=
  { write_at := w.write_at
    write_all_at := fun fuel => writeAllAtLoop w.write_at fuel }

/-- The external `Read + Write + Seek` resource wrapped by `ReadWriteSeek`,
given by its five operations as used in src/lib.rs lines 238-282.
`seek s off` models `Seek::seek(SeekFrom::Start(off)) -> Result<u64>`
(`ok n` = new position); `read`/`write` take the buffer length and return
`Result<usize>`; `read_exact`/`write_all` model `Read::read_exact` and
`Write::write_all`, returning `Result<()>` as `Option ErrKind`
(`none` = success). -/
structure SeekStream (σ : Type) where
  seek : σ → Nat → RWResult × σ
  read : σ → Nat → RWResult × σ
  write : σ → Nat → RWResult × σ
  read_exact : σ → Nat → Option ErrKind × σ
  write_all : σ → Nat → Option ErrKind × σ

namespace ReadWriteSeek

/-- Embedding of `read_at` from `impl ReadAtMut for ReadWriteSeek` (src/lib.rs lines 239-248):
seek to the offset (propagating a seek error via `?`); if the position
returned differs from the requested offset, fail with `UnexpectedEof`
("seek hasn't returned the required offset"); otherwise `Read::read`. -/
def read_at {σ : Type} (st : SeekStream σ) (s : σ) (bufLen off : Nat) :
    RWResult × σ :=
  match st.seek s off with
  | (.err k, s') => (.err k, s')
  | (.ok o, s') =>
    if o ≠ off then (.err .unexpectedEof, s') else st.read s' bufLen

/-- Embedding of `read_exact_at` from `impl ReadAtMut for ReadWriteSeek` (src/lib.rs lines
249-258): same seek-and-verify preamble, then `Read::read_exact`. -/
def read_exact_at {σ : Type} (st : SeekStream σ) (s : σ) (bufLen off : Nat) :
    Option ErrKind × σ :=
  match st.seek s off with
  | (.err k, s') => (some k, s')
  | (.ok o, s') =>
    if o ≠ off then (some .unexpectedEof, s') else st.read_exact s' bufLen

/-- Embedding of `write_at` from `impl WriteAtMut for ReadWriteSeek` (src/lib.rs lines
262-271): seek-and-verify, then `Write::write`. -/
def write_at {σ : Type} (st : SeekStream σ) (s : σ) (bufLen off : Nat) :
    RWResult × σ :=
  match st.seek s off with
  | (.err k, s') => (.err k, s')
  | (.ok o, s') =>
    if o ≠ off then (.err .unexpectedEof, s') else st.write s' bufLen

/-- Embedding of `write_all_at` from `impl WriteAtMut for ReadWriteSeek` (src/lib.rs lines
272-281): seek-and-verify, then `Write::write_all`. -/
def write_all_at {σ : Type} (st : SeekStream σ) (s : σ) (bufLen off : Nat) :
    Option ErrKind × σ :=
  match st.seek s off with
  | (.err k, s') => (some k, s')
  | (.ok o, s') =>
    if o ≠ off then (some .unexpectedEof, s') else st.write_all s' bufLen

end ReadWriteSeek

/-- State of `std::sync::Mutex<T>` as the bridge sees it: the poison flag
(set by std when a thread panics while holding the lock) plus the wrapped
value. `lock()` returns `Err` exactly when the flag is set. -/
structure MutexState (σ : Type) where
  poisoned : Bool
  inner : σ

namespace Mutex

/-- Embedding of `read_at` from `impl ReadAt for Mutex<T>` (src/lib.rs lines 360-370):
`self.lock()`; on `Err(_)` return `Err(Other, "poisoned mutex encountered")`
without touching the wrapped value; otherwise forward `ReadAtMut::read_at`
to the guarded value. -/
def read_at {σ : Type} (r : ReadAtMutImpl σ) (m : MutexState σ)
    (bufLen off : Nat) : RWResult × MutexState σ :=
  if m.poisoned then (.err .other, m)
  else
    let p := r.read_at m.inner bufLen off
    (p.1, ⟨false, p.2⟩)

/-- Embedding of `read_exact_at` from `impl ReadAt for Mutex<T>` (src/lib.rs lines 371-381):
one `lock()` per call; on success the entire `ReadAtMut::read_exact_at`
retry loop runs on the guarded value before the guard is released. -/
def read_exact_at {σ : Type} (r : ReadAtMutImpl σ) (fuel : Nat)
    (m : MutexState σ) (bufLen off : Nat) : ExactOutcome × MutexState σ :=
  if m.poisoned then (.err .other, m)
  else
    let p := r.read_exact_at fuel m.inner bufLen off
    (p.1, ⟨false, p.2.1⟩)

/-- Embedding of `write_at` from `impl WriteAt for Mutex<T>` (src/lib.rs lines 387-397). -/
def write_at {σ : Type} (w : WriteAtMutImpl σ) (m : MutexState σ)
    (bufLen off : Nat) : RWResult × MutexState σ :=
  if m.poisoned then (.err .other, m)
  else
    let p := w.write_at m.inner bufLen off
    (p.1, ⟨false, p.2⟩)

/-- Embedding of `write_all_at` from `impl WriteAt for Mutex<T>` (src/lib.rs lines 398-408). -/
def write_all_at {σ : Type} (w : WriteAtMutImpl σ) (fuel : Nat)
    (m : MutexState σ) (bufLen off : Nat) : ExactOutcome × MutexState σ :=
  if m.poisoned then (.err .other, m)
  else
    let p := w.write_all_at fuel m.inner bufLen off
    (p.1, ⟨false, p.2.1⟩)

end Mutex

/-- A single-call oracle that always transfers the whole remaining buffer. -/
def fullOracle : Oracle Unit := fun s rem _ => (.ok rem, s)

/-- A single-call oracle that always reports end-of-data (`Ok(0)`). -/
def eofOracle : Oracle Unit := fun s _ _ => (.ok 0, s)

/-- A single-call oracle that fails with `Interrupted` on every call. -/
def interruptedOracle : Oracle Unit := fun s _ _ => (.err .interrupted, s)

/-- A buggy single-call oracle that reports one more byte transferred than
the remaining buffer length. -/
def overOracle : Oracle Unit := fun s rem _ => (.ok (rem + 1), s)

/-- A stateful oracle over a `Nat` counter: while the counter is positive it
fails with `Interrupted` and decrements; at zero it transfers one byte and
resets the counter to `k`. -/
def interruptThenStep (k : Nat) : Oracle Nat := fun s _ _ =>
  match s with
  | 0 => (.ok 1, k)
  | c + 1 => (.err .interrupted, c)

/-- A single-call oracle that always transfers exactly one byte. -/
def oneOracle : Oracle Unit := fun s _ _ => (.ok 1, s)

/-- Invariant of the `read_exact_at` loop, by induction on fuel: a successful
exit means the remaining buffer is empty; the final remaining length never
exceeds the initial one; the final offset is the initial offset advanced by
exactly the number of bytes consumed from the buffer; and an `Interrupted`
error is never the loop's result. -/
theorem readExact_loop_spec {σ : Type} (readAt : Oracle σ) :
    ∀ (fuel : Nat) (s : σ) (rem off : Nat),
      ((readExactAtLoop readAt fuel s rem off).1 = ExactOutcome.ok →
        (readExactAtLoop readAt fuel s rem off).2.2.1 = 0) ∧
      (readExactAtLoop readAt fuel s rem off).2.2.1 ≤ rem ∧
      (readExactAtLoop readAt fuel s rem off).2.2.2
        = off + (rem - (readExactAtLoop readAt fuel s rem off).2.2.1) ∧
      (readExactAtLoop readAt fuel s rem off).1
        ≠ ExactOutcome.err ErrKind.interrupted := by
  intro fuel
  induction fuel with
  | zero =>
    intro s rem off
    simp [readExactAtLoop]
  | succ fuel ih =>
    intro s rem off
    by_cases hrem : rem = 0
    · subst hrem
      simp [readExactAtLoop]
    · rcases hor : readAt s rem off with ⟨res, s'⟩
      cases res with
      | ok n =>
        cases n with
        | zero =>
          simp [readExactAtLoop, hrem, hor]
        | succ n =>
          by_cases hlt : rem < n + 1
          · simp [readExactAtLoop, hrem, hor, hlt]
          · have hstep : readExactAtLoop readAt (fuel + 1) s rem off
                = readExactAtLoop readAt fuel s' (rem - (n + 1)) (off + (n + 1)) := by
              simp [readExactAtLoop, hrem, hor, hlt]
            rw [hstep]
            obtain ⟨ih1, ih2, ih3, ih4⟩ := ih s' (rem - (n + 1)) (off + (n + 1))
            refine ⟨ih1, by omega, by omega, ih4⟩
      | err k =>
        cases k with
        | interrupted =>
          have hstep : readExactAtLoop readAt (fuel + 1) s rem off
              = readExactAtLoop readAt fuel s' rem off := by
            simp [readExactAtLoop, hrem, hor]
          rw [hstep]
          exact ih s' rem off
        | unexpectedEof => simp [readExactAtLoop, hrem, hor]
        | writeZero => simp [readExactAtLoop, hrem, hor]
        | other => simp [readExactAtLoop, hrem, hor]
        | otherKind tag => simp [readExactAtLoop, hrem, hor]

/-- Invariant of the `write_all_at` loop, mirror image of
`readExact_loop_spec`. -/
theorem writeAll_loop_spec {σ : Type} (writeAt : Oracle σ) :
    ∀ (fuel : Nat) (s : σ) (rem off : Nat),
      ((writeAllAtLoop writeAt fuel s rem off).1 = ExactOutcome.ok →
        (writeAllAtLoop writeAt fuel s rem off).2.2.1 = 0) ∧
      (writeAllAtLoop writeAt fuel s rem off).2.2.1 ≤ rem ∧
      (writeAllAtLoop writeAt fuel s rem off).2.2.2
        = off + (rem - (writeAllAtLoop writeAt fuel s rem off).2.2.1) ∧
      (writeAllAtLoop writeAt fuel s rem off).1
        ≠ ExactOutcome.err ErrKind.interrupted := by
  intro fuel
  induction fuel with
  | zero =>
    intro s rem off
    simp [writeAllAtLoop]
  | succ fuel ih =>
    intro s rem off
    by_cases hrem : rem = 0
    · subst hrem
      simp [writeAllAtLoop]
    · rcases hor : writeAt s rem off with ⟨res, s'⟩
      cases res with
      | ok n =>
        cases n with
        | zero =>
          simp [writeAllAtLoop, hrem, hor]
        | succ n =>
          by_cases hlt : rem < n + 1
          · simp [writeAllAtLoop, hrem, hor, hlt]
          · have hstep : writeAllAtLoop writeAt (fuel + 1) s rem off
                = writeAllAtLoop writeAt fuel s' (rem - (n + 1)) (off + (n + 1)) := by
              simp [writeAllAtLoop, hrem, hor, hlt]
            rw [hstep]
            obtain ⟨ih1, ih2, ih3, ih4⟩ := ih s' (rem - (n + 1)) (off + (n + 1))
            refine ⟨ih1, by omega, by omega, ih4⟩
      | err k =>
        cases k with
        | interrupted =>
          have hstep : writeAllAtLoop writeAt (fuel + 1) s rem off
              = writeAllAtLoop writeAt fuel s' rem off := by
            simp [writeAllAtLoop, hrem, hor]
          rw [hstep]
          exact ih s' rem off
        | unexpectedEof => simp [writeAllAtLoop, hrem, hor]
        | writeZero => simp [writeAllAtLoop, hrem, hor]
        | other => simp [writeAllAtLoop, hrem, hor]
        | otherKind tag => simp [writeAllAtLoop, hrem, hor]

/-- C1: for every offset and non-empty buffer, `read_exact_at` either fills
the buffer completely and returns `Ok` (a successful exit leaves the
remaining slice empty — it never returns `Ok` partially filled), or, when a
sub-call returns `Ok(0)` while unfilled bytes remain, returns the
`UnexpectedEof` ("failed to fill whole buffer") error. -/
theorem read_exact_at_fills_or_eof {σ : Type} (readAt : Oracle σ) (fuel : Nat)
    (s : σ) (rem off : Nat) (hrem : 0 < rem) :
    ((readExactAtLoop readAt fuel s rem off).1 = ExactOutcome.ok →
      (readExactAtLoop readAt fuel s rem off).2.2.1 = 0) ∧
    ((readAt s rem off).1 = RWResult.ok 0 →
      readExactAtLoop readAt (fuel + 1) s rem off
        = (ExactOutcome.err ErrKind.unexpectedEof, (readAt s rem off).2, rem, off)) := by
  constructor
  · exact (readExact_loop_spec readAt fuel s rem off).1
  · intro h0
    have hrem' : ¬ rem = 0 := by omega
    rcases hor : readAt s rem off with ⟨res, s'⟩
    rw [hor] at h0
    simp only at h0
    subst h0
    simp [readExactAtLoop, hrem', hor]

/-- Witness for `read_exact_at_fills_or_eof` at the always-end-of-data
oracle, a 2-byte buffer and offset 0. -/
theorem read_exact_at_fills_or_eof_witness :
    ((readExactAtLoop eofOracle 1 () 2 0).1 = ExactOutcome.ok →
      (readExactAtLoop eofOracle 1 () 2 0).2.2.1 = 0) ∧
    ((eofOracle () 2 0).1 = RWResult.ok 0 →
      readExactAtLoop eofOracle 2 () 2 0
        = (ExactOutcome.err ErrKind.unexpectedEof, (eofOracle () 2 0).2, 2, 0)) :=
  read_exact_at_fills_or_eof eofOracle 1 () 2 0 (by decide)

/-- C2: for every offset and buffer, `write_all_at` never returns `Ok`
having written fewer bytes than the buffer length (a successful exit leaves
the remaining slice empty), and a sub-call returning `Ok(0)` while bytes
remain produces the `WriteZero` ("failed to write whole buffer") error
immediately — it is never treated as end-of-data. -/
theorem write_all_at_all_or_error {σ : Type} (writeAt : Oracle σ) (fuel : Nat)
    (s : σ) (rem off : Nat) (hrem : 0 < rem) :
    ((writeAllAtLoop writeAt fuel s rem off).1 = ExactOutcome.ok →
      (writeAllAtLoop writeAt fuel s rem off).2.2.1 = 0) ∧
    ((writeAt s rem off).1 = RWResult.ok 0 →
      writeAllAtLoop writeAt (fuel + 1) s rem off
        = (ExactOutcome.err ErrKind.writeZero, (writeAt s rem off).2, rem, off)) := by
  constructor
  · exact (writeAll_loop_spec writeAt fuel s rem off).1
  · intro h0
    have hrem' : ¬ rem = 0 := by omega
    rcases hor : writeAt s rem off with ⟨res, s'⟩
    rw [hor] at h0
    simp only at h0
    subst h0
    simp [writeAllAtLoop, hrem', hor]

/-- Witness for `write_all_at_all_or_error` at the zero-progress oracle, a
2-byte buffer and offset 0. -/
theorem write_all_at_all_or_error_witness :
    ((writeAllAtLoop eofOracle 1 () 2 0).1 = ExactOutcome.ok →
      (writeAllAtLoop eofOracle 1 () 2 0).2.2.1 = 0) ∧
    ((eofOracle () 2 0).1 = RWResult.ok 0 →
      writeAllAtLoop eofOracle 2 () 2 0
        = (ExactOutcome.err ErrKind.writeZero, (eofOracle () 2 0).2, 2, 0)) :=
  write_all_at_all_or_error eofOracle 1 () 2 0 (by decide)

/-- C6: in both exact-transfer loops, a sub-call failing with `Interrupted`
makes the loop retry with the identical remaining buffer and identical
offset (only the resource state moves on), and neither loop ever returns an
`Interrupted` error to its caller. -/
theorem exact_loops_retry_interrupted {σ : Type} (readAt writeAt : Oracle σ)
    (fuel : Nat) (s : σ) (rem off : Nat) (hrem : 0 < rem) :
    ((readAt s rem off).1 = RWResult.err ErrKind.interrupted →
      readExactAtLoop readAt (fuel + 1) s rem off
        = readExactAtLoop readAt fuel (readAt s rem off).2 rem off) ∧
    (readExactAtLoop readAt fuel s rem off).1
      ≠ ExactOutcome.err ErrKind.interrupted ∧
    ((writeAt s rem off).1 = RWResult.err ErrKind.interrupted →
      writeAllAtLoop writeAt (fuel + 1) s rem off
        = writeAllAtLoop writeAt fuel (writeAt s rem off).2 rem off) ∧
    (writeAllAtLoop writeAt fuel s rem off).1
      ≠ ExactOutcome.err ErrKind.interrupted := by
  have hrem' : ¬ rem = 0 := by omega
  refine ⟨?_, (readExact_loop_spec readAt fuel s rem off).2.2.2, ?_,
    (writeAll_loop_spec writeAt fuel s rem off).2.2.2⟩
  · intro h0
    rcases hor : readAt s rem off with ⟨res, s'⟩
    rw [hor] at h0
    simp only at h0
    subst h0
    simp [readExactAtLoop, hrem', hor]
  · intro h0
    rcases hor : writeAt s rem off with ⟨res, s'⟩
    rw [hor] at h0
    simp only at h0
    subst h0
    simp [writeAllAtLoop, hrem', hor]

/-- Witness for `exact_loops_retry_interrupted` at the always-interrupted
oracle, a 1-byte buffer and offset 0. -/
theorem exact_loops_retry_interrupted_witness :
    ((interruptedOracle () 1 0).1 = RWResult.err ErrKind.interrupted →
      readExactAtLoop interruptedOracle 2 () 1 0
        = readExactAtLoop interruptedOracle 1 (interruptedOracle () 1 0).2 1 0) ∧
    (readExactAtLoop interruptedOracle 1 () 1 0).1
      ≠ ExactOutcome.err ErrKind.interrupted ∧
    ((interruptedOracle () 1 0).1 = RWResult.err ErrKind.interrupted →
      writeAllAtLoop interruptedOracle 2 () 1 0
        = writeAllAtLoop interruptedOracle 1 (interruptedOracle () 1 0).2 1 0) ∧
    (writeAllAtLoop interruptedOracle 1 () 1 0).1
      ≠ ExactOutcome.err ErrKind.interrupted :=
  exact_loops_retry_interrupted interruptedOracle interruptedOracle 1 () 1 0
    (by decide)

/-- C7: in both exact-transfer loops, a sub-call returning `Ok(n)` with
`0 < n ≤ remaining` advances the offset by exactly `n` and drops exactly the
first `n` bytes of the remaining buffer; globally the final remaining length
never exceeds the initial one and the final offset equals the initial offset
plus the bytes consumed, so the total transferred across sub-calls never
exceeds the original buffer length. -/
theorem exact_loops_advance_invariant {σ : Type} (readAt writeAt : Oracle σ)
    (fuel : Nat) (s : σ) (rem off n : Nat) (hn : 0 < n) (hnr : n ≤ rem) :
    ((readAt s rem off).1 = RWResult.ok n →
      readExactAtLoop readAt (fuel + 1) s rem off
        = readExactAtLoop readAt fuel (readAt s rem off).2 (rem - n) (off + n)) ∧
    (readExactAtLoop readAt fuel s rem off).2.2.1 ≤ rem ∧
    (readExactAtLoop readAt fuel s rem off).2.2.2
      = off + (rem - (readExactAtLoop readAt fuel s rem off).2.2.1) ∧
    ((writeAt s rem off).1 = RWResult.ok n →
      writeAllAtLoop writeAt (fuel + 1) s rem off
        = writeAllAtLoop writeAt fuel (writeAt s rem off).2 (rem - n) (off + n)) ∧
    (writeAllAtLoop writeAt fuel s rem off).2.2.1 ≤ rem ∧
    (writeAllAtLoop writeAt fuel s rem off).2.2.2
      = off + (rem - (writeAllAtLoop writeAt fuel s rem off).2.2.1) := by
  have hrem' : ¬ rem = 0 := by omega
  obtain ⟨m, rfl⟩ : ∃ m, n = m + 1 := ⟨n - 1, by omega⟩
  have hlt : ¬ rem < m + 1 := by omega
  refine ⟨?_, (readExact_loop_spec readAt fuel s rem off).2.1,
    (readExact_loop_spec readAt fuel s rem off).2.2.1, ?_,
    (writeAll_loop_spec writeAt fuel s rem off).2.1,
    (writeAll_loop_spec writeAt fuel s rem off).2.2.1⟩
  · intro h0
    rcases hor : readAt s rem off with ⟨res, s'⟩
    rw [hor] at h0
    simp only at h0
    subst h0
    simp [readExactAtLoop, hrem', hor, hlt]
  · intro h0
    rcases hor : writeAt s rem off with ⟨res, s'⟩
    rw [hor] at h0
    simp only at h0
    subst h0
    simp [writeAllAtLoop, hrem', hor, hlt]

/-- Witness for `exact_loops_advance_invariant` at the one-byte-per-call
oracle, `n = 1`, a 2-byte buffer and offset 5. -/
theorem exact_loops_advance_invariant_witness :
    ((oneOracle () 2 5).1 = RWResult.ok 1 →
      readExactAtLoop oneOracle 3 () 2 5
        = readExactAtLoop oneOracle 2 (oneOracle () 2 5).2 (2 - 1) (5 + 1)) ∧
    (readExactAtLoop oneOracle 2 () 2 5).2.2.1 ≤ 2 ∧
    (readExactAtLoop oneOracle 2 () 2 5).2.2.2
      = 5 + (2 - (readExactAtLoop oneOracle 2 () 2 5).2.2.1) ∧
    ((oneOracle () 2 5).1 = RWResult.ok 1 →
      writeAllAtLoop oneOracle 3 () 2 5
        = writeAllAtLoop oneOracle 2 (oneOracle () 2 5).2 (2 - 1) (5 + 1)) ∧
    (writeAllAtLoop oneOracle 2 () 2 5).2.2.1 ≤ 2 ∧
    (writeAllAtLoop oneOracle 2 () 2 5).2.2.2
      = 5 + (2 - (writeAllAtLoop oneOracle 2 () 2 5).2.2.1) :=
  exact_loops_advance_invariant oneOracle oneOracle 2 () 2 5 1
    (by decide) (by decide)

/-- If every successful single-call read reports at most the remaining
buffer length, the `read_exact_at` loop never reaches the slice-index
panic. -/
theorem readExact_no_panic {σ : Type} (readAt : Oracle σ)
    (hO : ∀ t r o n, 0 < r → (readAt t r o).1 = RWResult.ok n → n ≤ r) :
    ∀ (fuel : Nat) (s : σ) (rem off : Nat),
      (readExactAtLoop readAt fuel s rem off).1 ≠ ExactOutcome.panic := by
  intro fuel
  induction fuel with
  | zero =>
    intro s rem off
    simp [readExactAtLoop]
  | succ fuel ih =>
    intro s rem off
    by_cases hrem : rem = 0
    · simp [readExactAtLoop, hrem]
    · rcases hor : readAt s rem off with ⟨res, s'⟩
      cases res with
      | ok n =>
        cases n with
        | zero => simp [readExactAtLoop, hrem, hor]
        | succ n =>
          have hle : n + 1 ≤ rem := hO s rem off (n + 1) (by omega) (by rw [hor])
          have hlt : ¬ rem < n + 1 := by omega
          have hstep : readExactAtLoop readAt (fuel + 1) s rem off
              = readExactAtLoop readAt fuel s' (rem - (n + 1)) (off + (n + 1)) := by
            simp [readExactAtLoop, hrem, hor, hlt]
          rw [hstep]
          exact ih s' (rem - (n + 1)) (off + (n + 1))
      | err k =>
        cases k with
        | interrupted =>
          have hstep : readExactAtLoop readAt (fuel + 1) s rem off
              = readExactAtLoop readAt fuel s' rem off := by
            simp [readExactAtLoop, hrem, hor]
          rw [hstep]
          exact ih s' rem off
        | unexpectedEof => simp [readExactAtLoop, hrem, hor]
        | writeZero => simp [readExactAtLoop, hrem, hor]
        | other => simp [readExactAtLoop, hrem, hor]
        | otherKind tag => simp [readExactAtLoop, hrem, hor]

/-- If every successful single-call write reports at most the remaining
buffer length, the `write_all_at` loop never reaches the slice-index
panic. -/
theorem writeAll_no_panic {σ : Type} (writeAt : Oracle σ)
    (hO : ∀ t r o n, 0 < r → (writeAt t r o).1 = RWResult.ok n → n ≤ r) :
    ∀ (fuel : Nat) (s : σ) (rem off : Nat),
      (writeAllAtLoop writeAt fuel s rem off).1 ≠ ExactOutcome.panic := by
  intro fuel
  induction fuel with
  | zero =>
    intro s rem off
    simp [writeAllAtLoop]
  | succ fuel ih =>
    intro s rem off
    by_cases hrem : rem = 0
    · simp [writeAllAtLoop, hrem]
    · rcases hor : writeAt s rem off with ⟨res, s'⟩
      cases res with
      | ok n =>
        cases n with
        | zero => simp [writeAllAtLoop, hrem, hor]
        | succ n =>
          have hle : n + 1 ≤ rem := hO s rem off (n + 1) (by omega) (by rw [hor])
          have hlt : ¬ rem < n + 1 := by omega
          have hstep : writeAllAtLoop writeAt (fuel + 1) s rem off
              = writeAllAtLoop writeAt fuel s' (rem - (n + 1)) (off + (n + 1)) := by
            simp [writeAllAtLoop, hrem, hor, hlt]
          rw [hstep]
          exact ih s' (rem - (n + 1)) (off + (n + 1))
      | err k =>
        cases k with
        | interrupted =>
          have hstep : writeAllAtLoop writeAt (fuel + 1) s rem off
              = writeAllAtLoop writeAt fuel s' rem off := by
            simp [writeAllAtLoop, hrem, hor]
          rw [hstep]
          exact ih s' rem off
        | unexpectedEof => simp [writeAllAtLoop, hrem, hor]
        | writeZero => simp [writeAllAtLoop, hrem, hor]
        | other => simp [writeAllAtLoop, hrem, hor]
        | otherKind tag => simp [writeAllAtLoop, hrem, hor]

/-- C9: the buffer-shrinking step `buf = &buf[n..]` is in bounds — and the
exact operations are panic-free — whenever every successful single-call
reports at most the remaining buffer length; an implementation reporting
one byte more than remains drives both loops into the slice-index panic
instead of an error return. -/
theorem exact_loops_panic_iff_overreport {σ : Type} (readAt writeAt : Oracle σ)
    (fuel : Nat) (s : σ) (rem off : Nat)
    (hr : ∀ t r o n, 0 < r → (readAt t r o).1 = RWResult.ok n → n ≤ r)
    (hw : ∀ t r o n, 0 < r → (writeAt t r o).1 = RWResult.ok n → n ≤ r) :
    (readExactAtLoop readAt fuel s rem off).1 ≠ ExactOutcome.panic ∧
    (writeAllAtLoop writeAt fuel s rem off).1 ≠ ExactOutcome.panic ∧
    (readExactAtLoop overOracle 1 () 1 0).1 = ExactOutcome.panic ∧
    (writeAllAtLoop overOracle 1 () 1 0).1 = ExactOutcome.panic :=
  ⟨readExact_no_panic readAt hr fuel s rem off,
   writeAll_no_panic writeAt hw fuel s rem off,
   by decide, by decide⟩

/-- Witness for `exact_loops_panic_iff_overreport` at the full-transfer
oracle, a 2-byte buffer and offset 0. -/
theorem exact_loops_panic_iff_overreport_witness :
    (readExactAtLoop fullOracle 3 () 2 0).1 ≠ ExactOutcome.panic ∧
    (writeAllAtLoop fullOracle 3 () 2 0).1 ≠ ExactOutcome.panic ∧
    (readExactAtLoop overOracle 1 () 1 0).1 = ExactOutcome.panic ∧
    (writeAllAtLoop overOracle 1 () 1 0).1 = ExactOutcome.panic :=
  exact_loops_panic_iff_overreport fullOracle fullOracle 3 () 2 0
    (by intro t r o n h1 h2; simp [fullOracle] at h2; omega)
    (by intro t r o n h1 h2; simp [fullOracle] at h2; omega)

/-- If interrupts strictly decrease a measure `μ` bounded by `B` and
successful reads never over-report, fuel `(B+1)*rem + μ s + 1` is enough
for the `read_exact_at` loop to exit. -/
theorem readExact_fuel_enough {σ : Type} (readAt : Oracle σ) (μ : σ → Nat)
    (B : Nat) (hB : ∀ t, μ t ≤ B)
    (hI : ∀ t r o, 0 < r →
      (readAt t r o).1 = RWResult.err ErrKind.interrupted →
      μ (readAt t r o).2 < μ t)
    (hO : ∀ t r o n, 0 < r → (readAt t r o).1 = RWResult.ok n → n ≤ r) :
    ∀ (fuel : Nat) (s : σ) (rem off : Nat),
      (B + 1) * rem + μ s + 1 ≤ fuel →
      (readExactAtLoop readAt fuel s rem off).1 ≠ ExactOutcome.outOfFuel := by
  intro fuel
  induction fuel with
  | zero =>
    intro s rem off h
    omega
  | succ fuel ih =>
    intro s rem off h
    by_cases hrem : rem = 0
    · simp [readExactAtLoop, hrem]
    · rcases hor : readAt s rem off with ⟨res, s'⟩
      cases res with
      | ok n =>
        cases n with
        | zero => simp [readExactAtLoop, hrem, hor]
        | succ n =>
          have hle : n + 1 ≤ rem := hO s rem off (n + 1) (by omega) (by rw [hor])
          have hlt : ¬ rem < n + 1 := by omega
          have hstep : readExactAtLoop readAt (fuel + 1) s rem off
              = readExactAtLoop readAt fuel s' (rem - (n + 1)) (off + (n + 1)) := by
            simp [readExactAtLoop, hrem, hor, hlt]
          rw [hstep]
          apply ih
          have h2 : (B + 1) * (rem - (n + 1)) + (B + 1) * 1 ≤ (B + 1) * rem := by
            rw [← Nat.mul_add]
            exact Nat.mul_le_mul_left _ (by omega)
          have h3 := hB s'
          omega
      | err k =>
        cases k with
        | interrupted =>
          have hdec : μ s' < μ s := by
            have hd := hI s rem off (by omega) (by rw [hor])
            rwa [hor] at hd
          have hstep : readExactAtLoop readAt (fuel + 1) s rem off
              = readExactAtLoop readAt fuel s' rem off := by
            simp [readExactAtLoop, hrem, hor]
          rw [hstep]
          apply ih
          omega
        | unexpectedEof => simp [readExactAtLoop, hrem, hor]
        | writeZero => simp [readExactAtLoop, hrem, hor]
        | other => simp [readExactAtLoop, hrem, hor]
        | otherKind tag => simp [readExactAtLoop, hrem, hor]

/-- Mirror image of `readExact_fuel_enough` for the `write_all_at` loop. -/
theorem writeAll_fuel_enough {σ : Type} (writeAt : Oracle σ) (μ : σ → Nat)
    (B : Nat) (hB : ∀ t, μ t ≤ B)
    (hI : ∀ t r o, 0 < r →
      (writeAt t r o).1 = RWResult.err ErrKind.interrupted →
      μ (writeAt t r o).2 < μ t)
    (hO : ∀ t r o n, 0 < r → (writeAt t r o).1 = RWResult.ok n → n ≤ r) :
    ∀ (fuel : Nat) (s : σ) (rem off : Nat),
      (B + 1) * rem + μ s + 1 ≤ fuel →
      (writeAllAtLoop writeAt fuel s rem off).1 ≠ ExactOutcome.outOfFuel := by
  intro fuel
  induction fuel with
  | zero =>
    intro s rem off h
    omega
  | succ fuel ih =>
    intro s rem off h
    by_cases hrem : rem = 0
    · simp [writeAllAtLoop, hrem]
    · rcases hor : writeAt s rem off with ⟨res, s'⟩
      cases res with
      | ok n =>
        cases n with
        | zero => simp [writeAllAtLoop, hrem, hor]
        | succ n =>
          have hle : n + 1 ≤ rem := hO s rem off (n + 1) (by omega) (by rw [hor])
          have hlt : ¬ rem < n + 1 := by omega
          have hstep : writeAllAtLoop writeAt (fuel + 1) s rem off
              = writeAllAtLoop writeAt fuel s' (rem - (n + 1)) (off + (n + 1)) := by
            simp [writeAllAtLoop, hrem, hor, hlt]
          rw [hstep]
          apply ih
          have h2 : (B + 1) * (rem - (n + 1)) + (B + 1) * 1 ≤ (B + 1) * rem := by
            rw [← Nat.mul_add]
            exact Nat.mul_le_mul_left _ (by omega)
          have h3 := hB s'
          omega
      | err k =>
        cases k with
        | interrupted =>
          have hdec : μ s' < μ s := by
            have hd := hI s rem off (by omega) (by rw [hor])
            rwa [hor] at hd
          have hstep : writeAllAtLoop writeAt (fuel + 1) s rem off
              = writeAllAtLoop writeAt fuel s' rem off := by
            simp [writeAllAtLoop, hrem, hor]
          rw [hstep]
          apply ih
          omega
        | unexpectedEof => simp [writeAllAtLoop, hrem, hor]
        | writeZero => simp [writeAllAtLoop, hrem, hor]
        | other => simp [writeAllAtLoop, hrem, hor]
        | otherKind tag => simp [writeAllAtLoop, hrem, hor]

/-- A single-call primitive answering `Interrupted` forever starves the
`read_exact_at` loop on a non-empty buffer: no amount of fuel lets it
exit. -/
theorem readExact_interrupted_starves :
    ∀ (fuel rem off : Nat), rem ≠ 0 →
      readExactAtLoop interruptedOracle fuel () rem off
        = (ExactOutcome.outOfFuel, (), rem, off) := by
  intro fuel
  induction fuel with
  | zero =>
    intro rem off h
    simp [readExactAtLoop]
  | succ fuel ih =>
    intro rem off h
    have hstep : readExactAtLoop interruptedOracle (fuel + 1) () rem off
        = readExactAtLoop interruptedOracle fuel () rem off := by
      simp [readExactAtLoop, h, interruptedOracle]
    rw [hstep]
    exact ih rem off h

/-- Mirror image of `readExact_interrupted_starves` for `write_all_at`. -/
theorem writeAll_interrupted_starves :
    ∀ (fuel rem off : Nat), rem ≠ 0 →
      writeAllAtLoop interruptedOracle fuel () rem off
        = (ExactOutcome.outOfFuel, (), rem, off) := by
  intro fuel
  induction fuel with
  | zero =>
    intro rem off h
    simp [writeAllAtLoop]
  | succ fuel ih =>
    intro rem off h
    have hstep : writeAllAtLoop interruptedOracle (fuel + 1) () rem off
        = writeAllAtLoop interruptedOracle fuel () rem off := by
      simp [writeAllAtLoop, h, interruptedOracle]
    rw [hstep]
    exact ih rem off h

/-- C10: both exact-transfer loops terminate (enough fuel makes the outcome
different from fuel exhaustion) whenever consecutive `Interrupted` results
strictly decrease a bounded measure of the resource state and successful
single-calls never report more than the remaining length; without that
precondition — a single-call answering `Interrupted` forever — the loops
run out of any amount of fuel on a non-empty buffer. -/
theorem exact_loops_terminate {σ : Type} (readAt writeAt : Oracle σ)
    (μr μw : σ → Nat) (B : Nat) (s : σ) (rem off fuelr fuelw fuel2 : Nat)
    (hBr : ∀ t, μr t ≤ B) (hBw : ∀ t, μw t ≤ B)
    (hIr : ∀ t r o, 0 < r →
      (readAt t r o).1 = RWResult.err ErrKind.interrupted →
      μr (readAt t r o).2 < μr t)
    (hOr : ∀ t r o n, 0 < r → (readAt t r o).1 = RWResult.ok n → n ≤ r)
    (hIw : ∀ t r o, 0 < r →
      (writeAt t r o).1 = RWResult.err ErrKind.interrupted →
      μw (writeAt t r o).2 < μw t)
    (hOw : ∀ t r o n, 0 < r → (writeAt t r o).1 = RWResult.ok n → n ≤ r)
    (hfr : (B + 1) * rem + μr s + 1 ≤ fuelr)
    (hfw : (B + 1) * rem + μw s + 1 ≤ fuelw) :
    (readExactAtLoop readAt fuelr s rem off).1 ≠ ExactOutcome.outOfFuel ∧
    (writeAllAtLoop writeAt fuelw s rem off).1 ≠ ExactOutcome.outOfFuel ∧
    (readExactAtLoop interruptedOracle fuel2 () (rem + 1) off).1
      = ExactOutcome.outOfFuel ∧
    (writeAllAtLoop interruptedOracle fuel2 () (rem + 1) off).1
      = ExactOutcome.outOfFuel := by
  refine ⟨readExact_fuel_enough readAt μr B hBr hIr hOr fuelr s rem off hfr,
    writeAll_fuel_enough writeAt μw B hBw hIw hOw fuelw s rem off hfw, ?_, ?_⟩
  · rw [readExact_interrupted_starves fuel2 (rem + 1) off (by omega)]
  · rw [writeAll_interrupted_starves fuel2 (rem + 1) off (by omega)]

/-- Witness for `exact_loops_terminate` at the one-byte-per-call oracle,
the constant-zero measure, a 2-byte buffer and fuel 3. -/
theorem exact_loops_terminate_witness :
    (readExactAtLoop oneOracle 3 () 2 0).1 ≠ ExactOutcome.outOfFuel ∧
    (writeAllAtLoop oneOracle 3 () 2 0).1 ≠ ExactOutcome.outOfFuel ∧
    (readExactAtLoop interruptedOracle 4 () (2 + 1) 0).1
      = ExactOutcome.outOfFuel ∧
    (writeAllAtLoop interruptedOracle 4 () (2 + 1) 0).1
      = ExactOutcome.outOfFuel :=
  exact_loops_terminate oneOracle oneOracle (fun _ => 0) (fun _ => 0) 0 () 2 0
    3 3 4
    (fun t => Nat.le_refl 0) (fun t => Nat.le_refl 0)
    (by intro t r o h1 h2; simp [oneOracle] at h2)
    (by intro t r o n h1 h2; simp [oneOracle] at h2; omega)
    (by intro t r o h1 h2; simp [oneOracle] at h2)
    (by intro t r o n h1 h2; simp [oneOracle] at h2; omega)
    (by decide) (by decide)

/-- A `ReadAt` implementation whose `read_at` transfers everything and whose
`read_exact_at` is the trait's default loop. -/
def fullReadImpl : ReadAtImpl Unit :=
  { read_at := fullOracle
    read_exact_at := fun fuel => readExactAtLoop fullOracle fuel }

/-- A `WriteAt` implementation whose `write_at` transfers everything and
whose `write_all_at` is the trait's default loop. -/
def defaultWriteImpl : WriteAtImpl Unit :=
  { write_at := fullOracle
    write_all_at := fun fuel => writeAllAtLoop fullOracle fuel }

/-- A `WriteAt` implementation that OVERRIDES `write_all_at` (as the unix
`File` impl in src/lib.rs lines 185-192 does): its `write_at` makes no
progress, yet its own `write_all_at` always succeeds. -/
def constOkWriteImpl : WriteAtImpl Unit :=
  { write_at := eofOracle
    write_all_at := fun _ s rem off => (.ok, s, rem, off) }

/-- A `ReadAtMut` implementation over `Unit`: full transfers and the default
exact loop. -/
def fullReadMutImpl : ReadAtMutImpl Unit :=
  { read_at := fullOracle
    read_exact_at := fun fuel => readExactAtLoop fullOracle fuel }

/-- A `WriteAtMut` implementation over `Unit`: full transfers and the
default exact loop. -/
def fullWriteMutImpl : WriteAtMutImpl Unit :=
  { write_at := fullOracle
    write_all_at := fun fuel => writeAllAtLoop fullOracle fuel }

/-- C3 counterexample: the claim that the widening impls forward BOTH
operations unchanged fails for `write_all_at` — the blanket
`impl<T: WriteAt> WriteAtMut for T` (src/lib.rs lines 167-171) provides
only `write_at`, so a `WriteAt` implementation that overrides its own
`write_all_at` behaves differently through the widened `WriteAtMut`
contract (here: the override succeeds on a 1-byte buffer while the widened
call runs the default loop over the zero-progress `write_at` and fails with
`WriteZero`). -/
theorem widening_not_all_forwarded :
    (widenWrite constOkWriteImpl).write_all_at 1 () 1 0
      ≠ constOkWriteImpl.write_all_at 1 () 1 0 := by
  decide

/-- C3 (amended): widening a `ReadAt` implementation forwards both
`read_at` and `read_exact_at` unchanged; widening a `WriteAt`
implementation forwards `write_at` unchanged, while its exact operation is
the `WriteAtMut` default retry loop over the forwarded `write_at` — which
coincides with the wrapped implementation's `write_all_at` exactly when the
latter is itself the default loop. -/
theorem widening_forwards {σ : Type} (r : ReadAtImpl σ) (w : WriteAtImpl σ)
    (fuel : Nat) (s : σ) (rem off : Nat) :
    (widenRead r).read_at = r.read_at ∧
    (widenRead r).read_exact_at = r.read_exact_at ∧
    (widenWrite w).write_at = w.write_at ∧
    (widenWrite w).write_all_at fuel s rem off
      = writeAllAtLoop w.write_at fuel s rem off ∧
    ((w.write_all_at = fun f => writeAllAtLoop w.write_at f) →
      (widenWrite w).write_all_at = w.write_all_at) :=
  ⟨rfl, rfl, rfl, rfl, fun h => h.symm⟩

/-- Witness for `widening_forwards` at the `Unit`-state full-transfer
implementations. -/
theorem widening_forwards_witness :
    (widenRead fullReadImpl).read_at = fullReadImpl.read_at ∧
    (widenRead fullReadImpl).read_exact_at = fullReadImpl.read_exact_at ∧
    (widenWrite defaultWriteImpl).write_at = defaultWriteImpl.write_at ∧
    (widenWrite defaultWriteImpl).write_all_at 1 () 1 0
      = writeAllAtLoop defaultWriteImpl.write_at 1 () 1 0 ∧
    ((defaultWriteImpl.write_all_at
        = fun f => writeAllAtLoop defaultWriteImpl.write_at f) →
      (widenWrite defaultWriteImpl).write_all_at
        = defaultWriteImpl.write_all_at) :=
  widening_forwards fullReadImpl defaultWriteImpl 1 () 1 0

/-- A seek-capable stream whose `seek` always lands on the requested
offset. -/
def exactSeekStream : SeekStream Unit :=
  { seek := fun s o => (.ok o, s)
    read := fun s n => (.ok n, s)
    write := fun s n => (.ok n, s)
    read_exact := fun s _ => (none, s)
    write_all := fun s _ => (none, s) }

/-- A seek-capable stream whose `seek` always reports position 0. -/
def stuckSeekStream : SeekStream Unit :=
  { seek := fun s _ => (.ok 0, s)
    read := fun s n => (.ok n, s)
    write := fun s n => (.ok n, s)
    read_exact := fun s _ => (none, s)
    write_all := fun s _ => (none, s) }

/-- C4: every positional call on `ReadWriteSeek` first seeks the wrapped
stream to the absolute offset; if the position `seek` returns differs from
the requested offset it fails with the `UnexpectedEof`-kind seek-mismatch
error, leaving the stream exactly as the seek left it (the transfer is
never performed, whatever the stream's read/write operations would do);
otherwise it performs the sequential operation of the requested granularity
(`read`/`write` for the single calls, `read_exact`/`write_all` for the
exact ones) on the positioned stream. -/
theorem seek_adapter_checks_offset {σ : Type} (st : SeekStream σ) (s s' : σ)
    (o off bufLen : Nat) (hseek : st.seek s off = (RWResult.ok o, s')) :
    (o ≠ off →
      ReadWriteSeek.read_at st s bufLen off
        = (RWResult.err ErrKind.unexpectedEof, s') ∧
      ReadWriteSeek.read_exact_at st s bufLen off
        = (some ErrKind.unexpectedEof, s') ∧
      ReadWriteSeek.write_at st s bufLen off
        = (RWResult.err ErrKind.unexpectedEof, s') ∧
      ReadWriteSeek.write_all_at st s bufLen off
        = (some ErrKind.unexpectedEof, s')) ∧
    (o = off →
      ReadWriteSeek.read_at st s bufLen off = st.read s' bufLen ∧
      ReadWriteSeek.read_exact_at st s bufLen off = st.read_exact s' bufLen ∧
      ReadWriteSeek.write_at st s bufLen off = st.write s' bufLen ∧
      ReadWriteSeek.write_all_at st s bufLen off = st.write_all s' bufLen) := by
  constructor
  · intro hne
    refine ⟨?_, ?_, ?_, ?_⟩ <;>
      simp [ReadWriteSeek.read_at, ReadWriteSeek.read_exact_at,
        ReadWriteSeek.write_at, ReadWriteSeek.write_all_at, hseek, hne]
  · intro heq
    subst heq
    refine ⟨?_, ?_, ?_, ?_⟩ <;>
      simp [ReadWriteSeek.read_at, ReadWriteSeek.read_exact_at,
        ReadWriteSeek.write_at, ReadWriteSeek.write_all_at, hseek]

/-- Witness for `seek_adapter_checks_offset`, applied once to a stream that
lands on the requested offset 3 and once to a stream that lands on 0 when
asked for 1. -/
theorem seek_adapter_checks_offset_witness :
    ((3 ≠ 3 →
      ReadWriteSeek.read_at exactSeekStream () 2 3
        = (RWResult.err ErrKind.unexpectedEof, ()) ∧
      ReadWriteSeek.read_exact_at exactSeekStream () 2 3
        = (some ErrKind.unexpectedEof, ()) ∧
      ReadWriteSeek.write_at exactSeekStream () 2 3
        = (RWResult.err ErrKind.unexpectedEof, ()) ∧
      ReadWriteSeek.write_all_at exactSeekStream () 2 3
        = (some ErrKind.unexpectedEof, ())) ∧
    (3 = 3 →
      ReadWriteSeek.read_at exactSeekStream () 2 3
        = exactSeekStream.read () 2 ∧
      ReadWriteSeek.read_exact_at exactSeekStream () 2 3
        = exactSeekStream.read_exact () 2 ∧
      ReadWriteSeek.write_at exactSeekStream () 2 3
        = exactSeekStream.write () 2 ∧
      ReadWriteSeek.write_all_at exactSeekStream () 2 3
        = exactSeekStream.write_all () 2)) ∧
    ((0 ≠ 1 →
      ReadWriteSeek.read_at stuckSeekStream () 2 1
        = (RWResult.err ErrKind.unexpectedEof, ()) ∧
      ReadWriteSeek.read_exact_at stuckSeekStream () 2 1
        = (some ErrKind.unexpectedEof, ()) ∧
      ReadWriteSeek.write_at stuckSeekStream () 2 1
        = (RWResult.err ErrKind.unexpectedEof, ()) ∧
      ReadWriteSeek.write_all_at stuckSeekStream () 2 1
        = (some ErrKind.unexpectedEof, ())) ∧
    (0 = 1 →
      ReadWriteSeek.read_at stuckSeekStream () 2 1
        = stuckSeekStream.read () 2 ∧
      ReadWriteSeek.read_exact_at stuckSeekStream () 2 1
        = stuckSeekStream.read_exact () 2 ∧
      ReadWriteSeek.write_at stuckSeekStream () 2 1
        = stuckSeekStream.write () 2 ∧
      ReadWriteSeek.write_all_at stuckSeekStream () 2 1
        = stuckSeekStream.write_all () 2)) :=
  ⟨seek_adapter_checks_offset exactSeekStream () () 3 3 2 rfl,
   seek_adapter_checks_offset stuckSeekStream () () 0 1 2 rfl⟩

/-- C5: when the mutex is poisoned, every call through the bridge — all
four operations — returns the `Other`-kind "poisoned mutex encountered"
error with the bridge state returned exactly as it was; the result does not
depend on the wrapped implementation at all (it is never invoked) and the
state stays poisoned, so every subsequent call fails the same way. -/
theorem mutex_poisoned_fails_without_use {σ : Type} (r : ReadAtMutImpl σ)
    (w : WriteAtMutImpl σ) (m : MutexState σ) (fuel bufLen off : Nat)
    (hp : m.poisoned = true) :
    Mutex.read_at r m bufLen off = (RWResult.err ErrKind.other, m) ∧
    Mutex.read_exact_at r fuel m bufLen off
      = (ExactOutcome.err ErrKind.other, m) ∧
    Mutex.write_at w m bufLen off = (RWResult.err ErrKind.other, m) ∧
    Mutex.write_all_at w fuel m bufLen off
      = (ExactOutcome.err ErrKind.other, m) := by
  refine ⟨?_, ?_, ?_, ?_⟩ <;>
    simp [Mutex.read_at, Mutex.read_exact_at, Mutex.write_at,
      Mutex.write_all_at, hp]

/-- Witness for `mutex_poisoned_fails_without_use` at a poisoned bridge over
the `Unit`-state implementations. -/
theorem mutex_poisoned_fails_without_use_witness :
    Mutex.read_at fullReadMutImpl ⟨true, ()⟩ 2 0
      = (RWResult.err ErrKind.other, ⟨true, ()⟩) ∧
    Mutex.read_exact_at fullReadMutImpl 3 ⟨true, ()⟩ 2 0
      = (ExactOutcome.err ErrKind.other, ⟨true, ()⟩) ∧
    Mutex.write_at fullWriteMutImpl ⟨true, ()⟩ 2 0
      = (RWResult.err ErrKind.other, ⟨true, ()⟩) ∧
    Mutex.write_all_at fullWriteMutImpl 3 ⟨true, ()⟩ 2 0
      = (ExactOutcome.err ErrKind.other, ⟨true, ()⟩) :=
  mutex_poisoned_fails_without_use fullReadMutImpl fullWriteMutImpl
    ⟨true, ()⟩ 3 2 0 rfl

namespace Bridge

/-! Interleaving model for two threads calling exact operations through one
`Mutex` bridge. In src/lib.rs lines 371-381 and 398-408 each exact call
performs `self.lock()` exactly once and runs the wrapped implementation's
entire `read_exact_at`/`write_all_at` retry loop while the guard is alive,
so a thread's whole sequence of sub-calls forms one critical section. Here
a thread is a list of sub-call actions on the wrapped resource state,
bracketed by one acquire and one release; a scheduler interleaves the two
threads' atomic steps arbitrarily, and a step of a thread that is blocked
on the lock (or already finished) leaves the system unchanged. -/

/-- Phase of a thread: before its single lock acquisition, inside its
critical section, or finished. -/
inductive TPhase where
  | start
  | run
  | done
  deriving DecidableEq, Repr

/-- A thread: its phase and the sub-call actions of its exact operation
still to perform on the wrapped resource. -/
structure Thr (σ : Type) where
  phase : TPhase
  todo : List (σ → σ)

/-- The bridged system: the lock holder (`false` = thread A, `true` =
thread B, `none` = free), the wrapped resource state, and the two
threads. -/
structure Sys (σ : Type) where
  lock : Option Bool
  res : σ
  ta : Thr σ
  tb : Thr σ

/-- Sequential composition of a list of sub-call actions, first action
first. -/
def comp {σ : Type} (fs : List (σ → σ)) (s : σ) : σ :=
  fs.foldl (fun x f => f x) s

@[simp] theorem comp_nil {σ : Type} (s : σ) : comp ([] : List (σ → σ)) s = s :=
  rfl

@[simp] theorem comp_cons {σ : Type} (f : σ → σ) (fs : List (σ → σ)) (s : σ) :
    comp (f :: fs) s = comp fs (f s) :=
  rfl

/-- One atomic step of thread `i`: acquire the lock if starting and the
lock is free; perform the next sub-call, or release and finish, if inside
the critical section; otherwise (blocked or finished) do nothing. Sub-calls
and release require holding the lock. -/
def step {σ : Type} (i : Bool) (y : Sys σ) : Sys σ :=
  let t := if i then y.tb else y.ta
  match t.phase with
  | .start =>
    if y.lock = none then
      if i then { y with lock := some true, tb := ⟨.run, t.todo⟩ }
      else { y with lock := some false, ta := ⟨.run, t.todo⟩ }
    else y
  | .run =>
    if y.lock = some i then
      match t.todo with
      | [] =>
        if i then { y with lock := none, tb := ⟨.done, []⟩ }
        else { y with lock := none, ta := ⟨.done, []⟩ }
      | f :: rest =>
        if i then { y with res := f y.res, tb := ⟨.run, rest⟩ }
        else { y with res := f y.res, ta := ⟨.run, rest⟩ }
    else y
  | .done => y

/-- Run a schedule (a list of thread choices) from a system state. -/
def run {σ : Type} : List Bool → Sys σ → Sys σ
  | [], y => y
  | i :: sched, y => run sched (step i y)

/-- Both threads poised to start their exact operations (`fs` for A, `gs`
for B) on resource state `s`, lock free. -/
def init {σ : Type} (fs gs : List (σ → σ)) (s : σ) : Sys σ :=
  ⟨none, s, ⟨.start, fs⟩, ⟨.start, gs⟩⟩

/-- Reachability invariant: the lock belongs to the unique running thread;
a running thread's pending actions, applied to the current resource, give
the same result as running its whole operation serially after whatever
completed before it; two threads are never both inside their critical
sections. -/
def Inv {σ : Type} (fs gs : List (σ → σ)) (s : σ) (y : Sys σ) : Prop :=
  match y.ta.phase, y.tb.phase with
  | .start, .start =>
      y.lock = none ∧ y.res = s ∧ y.ta.todo = fs ∧ y.tb.todo = gs
  | .run, .start =>
      y.lock = some false ∧ comp y.ta.todo y.res = comp fs s ∧ y.tb.todo = gs
  | .done, .start =>
      y.lock = none ∧ y.res = comp fs s ∧ y.tb.todo = gs
  | .start, .run =>
      y.lock = some true ∧ comp y.tb.todo y.res = comp gs s ∧ y.ta.todo = fs
  | .start, .done =>
      y.lock = none ∧ y.res = comp gs s ∧ y.ta.todo = fs
  | .run, .run => False
  | .run, .done =>
      y.lock = some false ∧ comp y.ta.todo y.res = comp fs (comp gs s)
  | .done, .run =>
      y.lock = some true ∧ comp y.tb.todo y.res = comp gs (comp fs s)
  | .done, .done =>
      y.lock = none ∧
        (y.res = comp gs (comp fs s) ∨ y.res = comp fs (comp gs s))

/-- The invariant is preserved by every step of either thread. -/
theorem Inv_step {σ : Type} (fs gs : List (σ → σ)) (s : σ) (i : Bool)
    (y : Sys σ) (h : Inv fs gs s y) : Inv fs gs s (step i y) := by
  rcases y with ⟨lk, res, ⟨pa, la⟩, ⟨pb, lb⟩⟩
  cases i <;> cases pa <;> cases pb <;>
    simp only [Inv] at h <;>
    first
    | exact h.elim
    | (obtain ⟨h1, h2⟩ := h
       subst h1
       cases la <;> cases lb <;> simp_all [Inv, step])

/-- The invariant is preserved by every schedule. -/
theorem Inv_run {σ : Type} (fs gs : List (σ → σ)) (s : σ) :
    ∀ (sched : List Bool) (y : Sys σ),
      Inv fs gs s y → Inv fs gs s (run sched y) := by
  intro sched
  induction sched with
  | nil =>
    intro y h
    exact h
  | cons i sched ih =>
    intro y h
    exact ih (step i y) (Inv_step fs gs s i y h)

end Bridge

/-- C8: the bridge takes the lock once per exact operation and keeps it for
the whole retry loop, so under any interleaving of two threads each
performing one exact operation through the same bridge, once both have
finished the resource is exactly as after running the two operations in one
of the two serial orders — the sub-calls never interleave.  The last two
conjuncts record the per-call shape on the sequential model: a non-poisoned
bridge call is a single acquisition under which the wrapped
implementation's entire exact loop runs before release. -/
theorem mutex_bridge_serializes {σ : Type} (fs gs : List (σ → σ)) (s : σ)
    (sched : List Bool) (r : ReadAtMutImpl σ) (w : WriteAtMutImpl σ) (t : σ)
    (fuel bufLen off : Nat)
    (h1 : (Bridge.run sched (Bridge.init fs gs s)).ta.phase
      = Bridge.TPhase.done)
    (h2 : (Bridge.run sched (Bridge.init fs gs s)).tb.phase
      = Bridge.TPhase.done) :
    ((Bridge.run sched (Bridge.init fs gs s)).res
        = Bridge.comp gs (Bridge.comp fs s) ∨
      (Bridge.run sched (Bridge.init fs gs s)).res
        = Bridge.comp fs (Bridge.comp gs s)) ∧
    Mutex.read_exact_at r fuel ⟨false, t⟩ bufLen off
      = ((r.read_exact_at fuel t bufLen off).1,
         ⟨false, (r.read_exact_at fuel t bufLen off).2.1⟩) ∧
    Mutex.write_all_at w fuel ⟨false, t⟩ bufLen off
      = ((w.write_all_at fuel t bufLen off).1,
         ⟨false, (w.write_all_at fuel t bufLen off).2.1⟩) := by
  refine ⟨?_, by simp [Mutex.read_exact_at], by simp [Mutex.write_all_at]⟩
  have h := Bridge.Inv_run fs gs s sched (Bridge.init fs gs s)
    (by simp [Bridge.Inv, Bridge.init])
  rcases hy : Bridge.run sched (Bridge.init fs gs s) with ⟨lk, res, ⟨pa, la⟩, ⟨pb, lb⟩⟩
  rw [hy] at h h1 h2
  simp only at h1 h2
  subst h1
  subst h2
  simp only [Bridge.Inv] at h
  exact h.2

/-- The increment action used by the serializability witness. -/
def incFn : Nat → Nat := fun n => n + 1

/-- The doubling action used by the serializability witness. -/
def dblFn : Nat → Nat := fun n => n * 2

/-- A full-transfer oracle over a `Nat` resource state. -/
def natFullOracle : Oracle Nat := fun s rem _ => (.ok rem, s)

/-- A `ReadAtMut` implementation over a `Nat` resource state. -/
def natReadMutImpl : ReadAtMutImpl Nat :=
  { read_at := natFullOracle
    read_exact_at := fun fuel => readExactAtLoop natFullOracle fuel }

/-- A `WriteAtMut` implementation over a `Nat` resource state. -/
def natWriteMutImpl : WriteAtMutImpl Nat :=
  { write_at := natFullOracle
    write_all_at := fun fuel => writeAllAtLoop natFullOracle fuel }

/-- Witness for `mutex_bridge_serializes`: thread A increments, thread B
doubles, on the schedule that runs A's whole operation and then B's. -/
theorem mutex_bridge_serializes_witness :
    ((Bridge.run [false, false, false, true, true, true]
        (Bridge.init [incFn] [dblFn] 3)).res
        = Bridge.comp [dblFn] (Bridge.comp [incFn] 3) ∨
      (Bridge.run [false, false, false, true, true, true]
        (Bridge.init [incFn] [dblFn] 3)).res
        = Bridge.comp [incFn] (Bridge.comp [dblFn] 3)) ∧
    Mutex.read_exact_at natReadMutImpl 3 ⟨false, 7⟩ 2 0
      = ((natReadMutImpl.read_exact_at 3 7 2 0).1,
         ⟨false, (natReadMutImpl.read_exact_at 3 7 2 0).2.1⟩) ∧
    Mutex.write_all_at natWriteMutImpl 3 ⟨false, 7⟩ 2 0
      = ((natWriteMutImpl.write_all_at 3 7 2 0).1,
         ⟨false, (natWriteMutImpl.write_all_at 3 7 2 0).2.1⟩) :=
  mutex_bridge_serializes [incFn] [dblFn] 3 [false, false, false, true, true, true]
    natReadMutImpl natWriteMutImpl 7 3 2 0 (by decide) (by decide)

end ReadWriteAt
